import Mathlib

/-!
Verification of the tool-calling engine of `my-first-agent-ts`.

This file gives a shallow embedding of the agent orchestration core:

* `ChatAgent.sendMessage` / `requestMessage` / `runToolCalls` /
  `parseManualToolCalls` / `appendAssistant` / `injectToolDefinitions` and the
  module-level helpers `appendToolFallback` / `hasDownload`
  (src/core/chatAgent.ts);
* `createDownloadToken` / `getDownloadPath` (the downloads module).

External effects are modelled explicitly:

* the OpenAI chat-completion endpoint becomes an oracle `Env.respond`
  indexed by the number of model calls made so far (a successful HTTP
  response yields the first choice's message, a thrown error yields its
  message string);
* tool execution (`executeFileToolCall` / `executeWebToolCall`, plus the
  engine's own catch-branch) becomes `Env.exec : ToolCall → String` — both
  executors and the catch-branch always produce a `role:"tool"` message whose
  `tool_call_id` is the request's id and whose content is a string;
* `Math.random`-based manual-call ids and `randomUUID` become injective
  oracles indexed by a consumption counter.

JavaScript string/regex semantics (`String.prototype.trim`, `\s`, the `.`
character class, greedy matching of the manual tool-call pattern, `Map.set`
/ `Map.get`) are reproduced character by character on `List Char`.
-/

namespace Agent

/-- JavaScript whitespace (`\s` in a regex, and the set removed by
`String.prototype.trim`): ASCII whitespace plus the Unicode space
separators, the line/paragraph separators and the BOM. -/
def isJsWs (c : Char) : Bool :=
  c == ' ' || c == '\t' || c == '\n' || c == '\x0b' || c == '\x0c' ||
  c == '\r' || c == '\u00A0' || c == '\u1680' ||
  (0x2000 ≤ c.toNat && c.toNat ≤ 0x200a) ||
  c == '\u2028' || c == '\u2029' || c == '\u202F' || c == '\u205F' ||
  c == '\u3000' || c == '\uFEFF'

/-- A character matched by `.` in a JavaScript regex (anything except a
line terminator). -/
def isDotChar (c : Char) : Bool :=
  !(c == '\n' || c == '\r' || c == '\u2028' || c == '\u2029')

/-- A character matched by the `["']` class of the manual tool-call regex. -/
def isQuote (c : Char) : Bool := c == '"' || c == '\''

/-- `String.prototype.trim`: drop JS whitespace from both ends. -/
def trimJs (s : String) : String :=
  ⟨(s.data.dropWhile isJsWs).reverse.dropWhile isJsWs |>.reverse⟩

/-- Match a literal character sequence at the head of the input, returning
the rest on success. -/
def eatLit : List Char → List Char → Option (List Char)
  | [], s => some s
  | _ :: _, [] => none
  | p :: ps, c :: cs => if c == p then eatLit ps cs else none

/-- Substring test on character lists (JS `String.prototype.includes` /
`RegExp.prototype.test` for a literal pattern). -/
def containsSub (hay pat : List Char) : Bool :=
  match hay with
  | [] => (eatLit pat []).isSome
  | _ :: cs => (eatLit pat hay).isSome || containsSub cs pat

/-- Split a segment at its LAST `}`: `braceSplit l = some (p, r)` when
`l = p ++ r`, `p` ends with `}` and `r` contains no `}`.  This is how the
greedy `.*}` of the manual tool-call regex consumes a line. -/
def braceSplit : List Char → Option (List Char × List Char)
  | [] => none
  | c :: cs =>
    match braceSplit cs with
    | some (p, r) => some (c :: p, r)
    | none => if c == '}' then some ([c], cs) else none

/-- The `["']([^"']+)["']` component: an opening quote, a nonempty
greedy run of non-quote characters (the capture), a closing quote.
Returns the captured name and the input remaining after the closing
quote. -/
def quoteName (r3 : List Char) : Option (List Char × List Char) :=
  match r3 with
  | [] => none
  | q1 :: r4 =>
    if isQuote q1 then
      let nm := r4.takeWhile (fun c => !isQuote c)
      if nm.isEmpty then none else
      match r4.dropWhile (fun c => !isQuote c) with
      | [] => none
      | _ :: r6 => some (nm, r6)
    else none

/-- The `({.*})` component: a literal `{`, then the greedy `.*}` runs to
the LAST `}` on the current line.  Returns the captured argument text
(braces included) and the input remaining after the match. -/
def matchArgs (r8 : List Char) : Option (List Char × List Char) :=
  match r8 with
  | [] => none
  | b :: r9 =>
    if b == '{' then
      match braceSplit (r9.takeWhile isDotChar) with
      | none => none
      | some (p, after) => some ('{' :: p, after ++ r9.dropWhile isDotChar)
    else none

/-- Attempt to match the manual tool-call pattern
`TOOL_CALL:\s*name=["']([^"']+)["']\s*arguments=({.*})` starting exactly at
the head of the input.  On success returns the two captures (tool name and
raw argument text) together with the input remaining after the match. -/
def matchAt (s : List Char) : Option (String × String × List Char) := do
  let r1 ← eatLit "TOOL_CALL:".data s
  let r3 ← eatLit "name=".data (r1.dropWhile isJsWs)
  let (nm, r6) ← quoteName r3
  let r8 ← eatLit "arguments=".data (r6.dropWhile isJsWs)
  let (args, rest) ← matchArgs r8
  pure (⟨nm⟩, ⟨args⟩, rest)

/-- One step of the global regex scan: try to match at the current
position; on success emit the captures and resume after the match, on
failure advance one character.  `fuel` bounds the recursion; it is seeded
with the input length, which the scan can never exhaust since every step
strictly shortens the input. -/
def scanCalls : Nat → List Char → List (String × String)
  | 0, _ => []
  | _, [] => []
  | fuel + 1, c :: cs =>
    match matchAt (c :: cs) with
    | some (n, a, rest) => (n, a) :: scanCalls fuel rest
    | none => scanCalls fuel cs

/-- All matches of the manual tool-call regex over an assistant text, in
order, as (name, raw-argument-text) pairs — the behaviour of the
`regex.exec` loop in `ChatAgent.parseManualToolCalls`. -/
def manualMatches (content : String) : List (String × String) :=
  scanCalls content.data.length content.data

/-- A tool request (`ChatCompletionMessageToolCall`, flattened: the
`type:"function"` tag is constant and the `function` record is inlined). -/
structure ToolCall where
  id : String
  name : String
  arguments : String
  deriving DecidableEq, Repr

/-- The message of the first choice of a chat completion: optional text
content and optional native tool-call list (`undefined` ≠ `[]`: an absent
list and a present empty list are distinguished, as in the JS truthiness
check `message.tool_calls`). -/
structure ModelMessage where
  content : Option String
  tool_calls : Option (List ToolCall)
  deriving DecidableEq, Repr

/-- Outcome of one `client.chat.completions.create` call: either a
successful completion (whose first choice's message may be absent —
`completion.choices[0]?.message ?? null`) or a thrown error carrying its
message string. -/
inductive ModelResult
  | ok (msg : Option ModelMessage)
  | err (message : String)
  deriving DecidableEq, Repr

/-- One element of structured (array) user content. -/
inductive ContentPart
  | text (s : String)
  | image_url (url : String)
  deriving DecidableEq, Repr

/-- User content passed to `sendMessage`: a plain string or an array of
content parts. -/
inductive UserContent
  | str (s : String)
  | parts (ps : List ContentPart)
  deriving DecidableEq, Repr

/-- A conversation message (`MessageParam`). -/
inductive Message
  | system (content : String)
  | user (content : UserContent)
  | assistant (content : Option String) (tool_calls : Option (List ToolCall))
  | tool (tool_call_id : String) (content : String)
  deriving DecidableEq, Repr

/-- JS `Map.prototype.set` on an association list: update the existing
entry for the key in place, else append a new entry. -/
def setEntry {β : Type} (m : List (String × β)) (k : String) (v : β) :
    List (String × β) :=
  if m.any (fun e => e.1 == k) then
    m.map (fun e => if e.1 == k then (k, v) else e)
  else m ++ [(k, v)]

/-- JS `Map.prototype.get` on an association list. -/
def getEntry {β : Type} (m : List (String × β)) (k : String) : Option β :=
  (m.find? (fun e => e.1 == k)).map (fun e => e.2)

/-- The external world of one `ChatAgent`:
`respond n` is the model endpoint's behaviour on the (n+1)-st request of a
`sendMessage` call (the backend oracle); `exec` is the combined tool
executor (`executeWebToolCall` / `executeFileToolCall` together with the
engine's catch-branch), giving the string content of the `role:"tool"`
message produced for a request; `idGen n` is the (n+1)-st id produced by
`"call_" + Math.random()...` for a manual call. -/
structure Env where
  respond : Nat → ModelResult
  exec : ToolCall → String
  idGen : Nat → String

/-- The mutable state of a `ChatAgent` instance, together with the
process-wide `modelToolSupport` registry and the count of manual-call ids
generated so far (the random-oracle cursor). -/
structure AgentState where
  conversation : List Message
  toolsSupported : Option Bool
  registry : List (String × Bool)
  idCtr : Nat
  deriving Repr

/-- `new ChatAgent(config)`: a single system message and the cached
capability flag for the configured model. -/
def mkAgent (registry : List (String × Bool)) (model systemPrompt : String) :
    AgentState :=
  { conversation := [Message.system systemPrompt]
    toolsSupported := getEntry registry model
    registry := registry
    idCtr := 0 }

/-- The error-message test for "tools unsupported" in
`ChatAgent.requestMessage`. -/
def isToolError (errorMessage : String) : Bool :=
  containsSub errorMessage.data "does not support tools".data ||
  (containsSub errorMessage.data "tool".data &&
    containsSub errorMessage.data "not supported".data)

/-- `/<a\s/i`: an ASCII `<`, then `a` or `A`, then a JS whitespace
character, anywhere in the text. -/
def hasAnchor : List Char → Bool
  | '<' :: c :: w :: rest =>
    ((c == 'a' || c == 'A') && isJsWs w) || hasAnchor (c :: w :: rest)
  | _ :: rest => hasAnchor rest
  | [] => false

/-- The download-marker test of `appendToolFallback`:
`/\/api\/download\//.test(finalContent) || /<a\s/i.test(finalContent)`. -/
def hasDownload (finalContent : String) : Bool :=
  containsSub finalContent.data "/api/download/".data ||
  hasAnchor finalContent.data

/-- `appendToolFallback`: append the raw tool outputs after the final text
unless there are none or the text already carries a download marker. -/
def appendToolFallback (finalContent : String) (toolOutputs : List String) :
    String :=
  if toolOutputs.isEmpty then finalContent
  else if hasDownload finalContent then finalContent
  else finalContent ++ "\n\n" ++ String.intercalate "\n\n" toolOutputs

/-- The fixed limit-reached reply of `sendMessage`. -/
def limitMessage : String :=
  "Lo siento, he alcanzado el límite de pasos para completar esta tarea."

/-- `ChatAgent.MAX_ITERATIONS`. -/
def MAX_ITERATIONS : Nat := 5

/-- A tool schema as exposed to the model: name, description, and the
`JSON.stringify` of its JSON-schema parameters. -/
structure ToolDef where
  name : String
  description : String
  parameters : String
  deriving Repr

/-- `fileTools` (src/tools/fileTools.ts), with
`DEFAULT_MAX_READ_BYTES = 200_000` interpolated. -/
def fileTools : List ToolDef :=
  [ { name := "read_file"
      description := "Lee un archivo de texto en el disco y devuelve su contenido"
      parameters := "\x7b\"type\":\"object\",\"properties\":\x7b\"file_path\":\x7b\"type\":\"string\",\"description\":\"Ruta del archivo a leer, relativa al proyecto o absoluta\"\x7d,\"max_bytes\":\x7b\"type\":\"number\",\"description\":\"Máximo de bytes a leer (por defecto 200000)\"\x7d\x7d,\"required\":[\"file_path\"]\x7d" }
  , { name := "prepare_file_download"
      description := "Crea o sobreescribe un archivo y devuelve un enlace de descarga listo para el navegador"
      parameters := "\x7b\"type\":\"object\",\"properties\":\x7b\"file_path\":\x7b\"type\":\"string\",\"description\":\"Ruta del archivo a generar, relativa al proyecto o absoluta\"\x7d,\"content\":\x7b\"type\":\"string\",\"description\":\"Contenido a escribir en el archivo\"\x7d,\"mode\":\x7b\"type\":\"string\",\"enum\":[\"replace\",\"append\"],\"description\":\"replace sobrescribe (default), append añade al final\"\x7d\x7d,\"required\":[\"file_path\",\"content\"]\x7d" }
  , { name := "prepare_download"
      description := "Genera un enlace de descarga para un archivo existente y accesible por el navegador"
      parameters := "\x7b\"type\":\"object\",\"properties\":\x7b\"file_path\":\x7b\"type\":\"string\",\"description\":\"Ruta del archivo a descargar, relativa al proyecto o absoluta\"\x7d\x7d,\"required\":[\"file_path\"]\x7d" }
  , { name := "write_file"
      description := "Escribe texto en un archivo (sobrescribe o añade)"
      parameters := "\x7b\"type\":\"object\",\"properties\":\x7b\"file_path\":\x7b\"type\":\"string\",\"description\":\"Ruta del archivo a escribir, relativa al proyecto o absoluta\"\x7d,\"content\":\x7b\"type\":\"string\",\"description\":\"Contenido a escribir\"\x7d,\"mode\":\x7b\"type\":\"string\",\"enum\":[\"replace\",\"append\"],\"description\":\"replace sobrescribe (default), append añade al final\"\x7d\x7d,\"required\":[\"file_path\",\"content\"]\x7d" }
  ]

/-- `webTools` (src/tools/webTools.ts), with
`DEFAULT_MAX_RESPONSE_BYTES = 1_000_000` interpolated. -/
def webTools : List ToolDef :=
  [ { name := "fetch_url"
      description := "Obtiene el contenido de una URL (página web, API, etc.)"
      parameters := "\x7b\"type\":\"object\",\"properties\":\x7b\"url\":\x7b\"type\":\"string\",\"description\":\"URL completa a obtener (debe empezar con http:// o https://)\"\x7d,\"max_bytes\":\x7b\"type\":\"number\",\"description\":\"Máximo de bytes a leer (por defecto 1000000)\"\x7d\x7d,\"required\":[\"url\"]\x7d" }
  ]

/-- `allTools = [...fileTools, ...webTools]`. -/
def allTools : List ToolDef := fileTools ++ webTools

/-- The text appended to the system prompt by `injectToolDefinitions`. -/
def toolInstruction : String :=
  let definitions := String.intercalate "\n" (allTools.map fun t =>
    "- **" ++ t.name ++ "**: " ++ t.description ++ "\n  Args: " ++ t.parameters)
  "\n\nHerramientas disponibles:\n" ++ definitions ++
    "\n\nPara llamar a una herramienta usa el formato:\nTOOL_CALL: name=\"nombre\" arguments=\x7b\"arg\": \"valor\"\x7d"

/-- `ChatAgent.injectToolDefinitions`: if the first message is the system
message and does not yet contain the catalog header, append the catalog to
its content. -/
def injectToolDefinitions : List Message → List Message
  | Message.system s :: rest =>
    if containsSub s.data "Herramientas disponibles:".data then
      Message.system s :: rest
    else Message.system (s ++ toolInstruction) :: rest
  | conv => conv

/-- Build one `ToolCall` per regex match, drawing consecutive fresh ids
from the id oracle starting at cursor `k`. -/
def buildCalls (idGen : Nat → String) : Nat → List (String × String) → List ToolCall
  | _, [] => []
  | k, m :: ms =>
    { id := idGen k, name := m.1, arguments := m.2 } :: buildCalls idGen (k + 1) ms

/-- `ChatAgent.parseManualToolCalls`: every regex match becomes a
`ToolCall` carrying a freshly generated id and the raw matched argument
text (the `try` block around the construction cannot throw: no JSON
decoding happens at parse time). -/
def parseManualToolCalls (idGen : Nat → String) (idCtr : Nat)
    (content : String) : List ToolCall :=
  buildCalls idGen idCtr (manualMatches content)

/-- `ChatAgent.appendAssistant`: push an assistant message unless the
content is empty. -/
def appendAssistant (conv : List Message) (content : String) : List Message :=
  if content.isEmpty then conv
  else conv ++ [Message.assistant (some content) none]

/-- `ChatAgent.runToolCalls`: run every requested tool (`Promise.all`
joins the concurrently-produced results back in request order), push one
`role:"tool"` message per request — carrying that request's id — onto the
conversation in request order, and collect the output strings. -/
def runToolCalls (exec : ToolCall → String) (conv : List Message)
    (toolCalls : List ToolCall) : List String × List Message :=
  let results := toolCalls.map fun call => (call.id, exec call)
  (results.map fun r => r.2, conv ++ results.map fun r => Message.tool r.1 r.2)

/-- `ChatAgent.handleNativeToolFlow`: record the assistant turn (with its
native tool-call metadata), then run the tools. -/
def handleNativeToolFlow (exec : ToolCall → String) (conv : List Message)
    (msg : ModelMessage) : List String × List Message :=
  runToolCalls exec
    (conv ++ [Message.assistant msg.content msg.tool_calls])
    (msg.tool_calls.getD [])

/-- `ChatAgent.handleManualToolFlow`: record the assistant text (if any),
then run the parsed manual calls. -/
def handleManualToolFlow (exec : ToolCall → String) (conv : List Message)
    (msg : ModelMessage) (manualCalls : List ToolCall) :
    List String × List Message :=
  runToolCalls exec (appendAssistant conv (msg.content.getD "")) manualCalls

/-- Result of `ChatAgent.requestMessage`: the message obtained (if any),
the updated instance flag and process-wide registry, and the model-call
trace (`allowTools` flag of each request issued so far, in order). -/
structure ReqResult where
  message : Option ModelMessage
  toolsSupported : Option Bool
  registry : List (String × Bool)
  trace : List Bool
  deriving Repr

/-- JS truthiness of `completion.choices[0]?.message.tool_calls`: the
field is present (even an empty array is truthy). -/
def msgToolCallsPresent : Option ModelMessage → Bool
  | some m => m.tool_calls.isSome
  | none => false

/-- `ChatAgent.requestMessage`: issue one model request; on success with
tools offered and an unknown flag, learn `supported` when the response
carries a `tool_calls` field; on a tools-unsupported error with tools
offered, learn `unsupported` and retry once immediately with tools
disabled (the recursive call, unfolded here, cannot retry again since it
passes `allowTools = false`); on any other error return no message. -/
def requestMessage (env : Env) (model : String) (allowTools : Bool)
    (toolsSupported : Option Bool) (registry : List (String × Bool))
    (trace : List Bool) : ReqResult :=
  let trace1 := trace ++ [allowTools]
  match env.respond trace.length with
  | ModelResult.ok msg =>
    if allowTools && toolsSupported.isNone && msgToolCallsPresent msg then
      ⟨msg, some true, setEntry registry model true, trace1⟩
    else
      ⟨msg, toolsSupported, registry, trace1⟩
  | ModelResult.err e =>
    if isToolError e && allowTools then
      let registry1 := setEntry registry model false
      let trace2 := trace1 ++ [false]
      match env.respond trace1.length with
      | ModelResult.ok msg2 => ⟨msg2, some false, registry1, trace2⟩
      | ModelResult.err _ => ⟨none, some false, registry1, trace2⟩
    else ⟨none, toolsSupported, registry, trace1⟩

/-- Result of one `sendMessage` call: the reply (`null` as `none`), the
final agent state, and the trace of model calls issued. -/
structure SendResult where
  reply : Option String
  state : AgentState
  trace : List Bool
  deriving Repr

/-- JS truthiness of `message.content` (non-null and non-empty). -/
def strTruthy : Option String → Bool
  | some s => !s.isEmpty
  | none => false

/-- The `while (iteration < MAX_ITERATIONS)` loop of
`ChatAgent.sendMessage`, with `fuel` the remaining iterations.  Running
out of fuel yields the fixed limit-reached message. -/
def sendLoop (env : Env) (model : String) (hasImages : Bool) :
    Nat → AgentState → List String → List Bool → SendResult
  | 0, st, _, trace => ⟨some limitMessage, st, trace⟩
  | fuel + 1, st, allToolOutputs, trace =>
    let shouldTryTools := !hasImages && !(st.toolsSupported == some false)
    let conv0 :=
      if !hasImages && st.toolsSupported == some false then
        injectToolDefinitions st.conversation
      else st.conversation
    let r := requestMessage env model shouldTryTools st.toolsSupported
      st.registry trace
    let st1 : AgentState :=
      { st with conversation := conv0, toolsSupported := r.toolsSupported,
                registry := r.registry }
    match r.message with
    | none => ⟨none, st1, r.trace⟩
    | some msg =>
      let nativeToolCalls := msg.tool_calls.getD []
      let manualToolCalls :=
        parseManualToolCalls env.idGen st1.idCtr (msg.content.getD "")
      let st2 : AgentState :=
        { st1 with idCtr := st1.idCtr + manualToolCalls.length }
      if nativeToolCalls.isEmpty && manualToolCalls.isEmpty then
        if strTruthy msg.content then
          let finalReply := appendToolFallback (msg.content.getD "") allToolOutputs
          ⟨some finalReply,
            { st2 with conversation := appendAssistant st2.conversation finalReply },
            r.trace⟩
        else if !allToolOutputs.isEmpty then
          let fallback := String.intercalate "\n\n" allToolOutputs
          ⟨some fallback,
            { st2 with conversation := appendAssistant st2.conversation fallback },
            r.trace⟩
        else ⟨none, st2, r.trace⟩
      else
        let flowResult :=
          if !nativeToolCalls.isEmpty then
            handleNativeToolFlow env.exec st2.conversation msg
          else
            handleManualToolFlow env.exec st2.conversation msg manualToolCalls
        sendLoop env model hasImages fuel
          { st2 with conversation := flowResult.2 }
          (allToolOutputs ++ flowResult.1) r.trace

/-- `ChatAgent.sendMessage`: reject empty input (empty part array, or a
string that is whitespace-only after `trim`), otherwise push the user
message (the trimmed string, or the part array) and run the tool-calling
loop; `hasImages` disables tool offering for array content with an image
part. -/
def sendMessage (env : Env) (model : String) (st : AgentState)
    (prompt : UserContent) : SendResult :=
  match prompt with
  | UserContent.parts ps =>
    if ps.isEmpty then ⟨none, st, []⟩
    else
      let hasImages := ps.any fun p =>
        match p with
        | ContentPart.image_url _ => true
        | _ => false
      sendLoop env model hasImages MAX_ITERATIONS
        { st with conversation :=
            st.conversation ++ [Message.user (UserContent.parts ps)] }
        [] []
  | UserContent.str s =>
    let c := trimJs s
    if c.isEmpty then ⟨none, st, []⟩
    else
      sendLoop env model false MAX_ITERATIONS
        { st with conversation :=
            st.conversation ++ [Message.user (UserContent.str c)] }
        [] []

/-- The in-memory download registry (src/server/downloads.ts) together
with the `randomUUID` oracle cursor: `uuidCtr` counts the UUIDs drawn so
far. -/
structure DownloadStore where
  entries : List (String × String)
  uuidCtr : Nat
  deriving Repr

/-- The initial empty `downloads` map. -/
def emptyDownloads : DownloadStore := ⟨[], 0⟩

/-- `createDownloadToken(filePath)`: draw a fresh UUID from the oracle and
`Map.set` the token → path entry. -/
def createDownloadToken (uuid : Nat → String) (st : DownloadStore)
    (filePath : String) : String × DownloadStore :=
  let token := uuid st.uuidCtr
  (token, ⟨setEntry st.entries token filePath, st.uuidCtr + 1⟩)

/-- `getDownloadPath(token)`: a pure `Map.get` — it returns the stored
path without touching the map. -/
def getDownloadPath (st : DownloadStore) (token : String) : Option String :=
  getEntry st.entries token

/-- The store obtained by a sequence of `createDownloadToken` calls
starting from the empty map. -/
def runCreates (uuid : Nat → String) (paths : List String) : DownloadStore :=
  paths.foldl (fun st p => (createDownloadToken uuid st p).2) emptyDownloads

/-- The association of tokens to paths a `createDownloadToken` sequence
builds: the i-th path is keyed by the (base+i)-th UUID.  Specification
artifact used to state the download-store theorems. -/
def tokenTable (uuid : Nat → String) (base : Nat) :
    List String → List (String × String)
  | [] => []
  | p :: ps => (uuid base, p) :: tokenTable uuid (base + 1) ps

/-- The completion events of a concurrent execution of `toolCalls` under a
completion schedule `sched` (the order in which the promises settle): the
promise of request index `i` settles with that request's result.
Specification artifact modelling the fan-out of `Promise.all`. -/
def execEvents (exec : ToolCall → String) (toolCalls : List ToolCall)
    (sched : List Nat) : List (Nat × String) :=
  sched.filterMap fun i => (toolCalls.get? i).map fun c => (i, exec c)

/-- `Promise.all`'s fan-in: the joined result array is positional — slot
`i` holds the settlement of promise `i`, whatever the completion order
was (`none` if some promise never settled).  Specification artifact. -/
def settleAll (n : Nat) (events : List (Nat × String)) :
    Option (List String) :=
  (List.range n).mapM fun i => (events.find? fun e => e.1 == i).map fun e => e.2

/-- A fresh agent talking to model `"m"` with system prompt `"sp"` and an
empty capability registry — the state used by the concrete scenarios. -/
def st0 : AgentState := mkAgent [] "m" "sp"

/-- Manual-call id oracle used by the concrete scenarios. -/
def idGen0 : Nat → String := fun n => "call_" ++ toString n

/-- A backend that always answers with plain text `"Hola"` and never
requests a tool. -/
def envPlain : Env :=
  { respond := fun _ => ModelResult.ok (some ⟨some "Hola", none⟩)
    exec := fun _ => "out"
    idGen := idGen0 }

/-- A native tool request used by the concrete scenarios. -/
def tcRead : ToolCall :=
  { id := "c1", name := "read_file", arguments := "\x7b\x7d" }

/-- A backend whose first response is a tools-unsupported error and whose
every successful response carries a native tool request. -/
def envC2 : Env :=
  { respond := fun n =>
      match n with
      | 0 => ModelResult.err "The model does not support tools"
      | _ + 1 => ModelResult.ok (some ⟨none, some [tcRead]⟩)
    exec := fun _ => "out"
    idGen := idGen0 }

/-- A backend that errors with a tools-unsupported message on the first
attempt and answers `"Hola"` on the retry. -/
def envC3 : Env :=
  { respond := fun n =>
      match n with
      | 0 => ModelResult.err "this model does not support tools"
      | _ + 1 => ModelResult.ok (some ⟨some "Hola", none⟩)
    exec := fun _ => "out"
    idGen := idGen0 }

/-- A backend whose first response requests a tool whose execution yields
the empty string, and whose second response has neither text nor tool
requests. -/
def envC9 : Env :=
  { respond := fun n =>
      match n with
      | 0 => ModelResult.ok (some ⟨none, some [tcRead]⟩)
      | _ + 1 => ModelResult.ok (some ⟨none, none⟩)
    exec := fun _ => ""
    idGen := idGen0 }

/-- A backend whose every response has the EMPTY string as content and no
tool requests. -/
def envEmptyReply : Env :=
  { respond := fun _ => ModelResult.ok (some ⟨some "", none⟩)
    exec := fun _ => "out"
    idGen := idGen0 }

/-- An injective UUID oracle used by the download-store scenarios. -/
def uuidW : Nat → String := fun n => String.mk (List.replicate n 'a')

/-- A second tool request used by the concrete scenarios. -/
def tcW : ToolCall :=
  { id := "c2", name := "fetch_url", arguments := "\x7b\x7d" }

/-- "Every successful response contains a new tool request": every `ok`
response carries a message with a nonempty native tool-call list or text
matching the manual pattern. -/
def alwaysToolReq (env : Env) : Prop :=
  ∀ n msg, env.respond n = ModelResult.ok msg →
    ∃ m, msg = some m ∧
      (m.tool_calls.getD [] ≠ [] ∨ manualMatches (m.content.getD "") ≠ [])

/-- "Every response is successful" (no thrown errors). -/
def allOk (env : Env) : Prop :=
  ∀ n, ∃ msg, env.respond n = ModelResult.ok msg

/-! ### General lemmas -/

theorem buildCalls_fields (idGen : Nat → String) :
    ∀ (ms : List (String × String)) (k : Nat),
      (buildCalls idGen k ms).map (fun tc => (tc.name, tc.arguments)) = ms ∧
      (buildCalls idGen k ms).map ToolCall.id =
        (List.range ms.length).map (fun i => idGen (k + i)) := by
  intro ms
  induction ms with
  | nil => intro k; simp [buildCalls]
  | cons m ms ih =>
    intro k
    obtain ⟨h1, h2⟩ := ih (k + 1)
    refine ⟨by simp [buildCalls, h1], ?_⟩
    simp only [buildCalls, List.map_cons, h2, List.length_cons,
      List.range_succ_eq_map, List.map_map]
    refine congrArg₂ _ (by simp) (List.map_congr_left fun i _ => ?_)
    simp only [Function.comp]
    congr 1
    omega

theorem braceSplit_append :
    ∀ (l p r : List Char), braceSplit l = some (p, r) → p ++ r = l := by
  intro l
  induction l with
  | nil => intro p r h; simp [braceSplit] at h
  | cons c cs ih =>
    intro p r h
    simp only [braceSplit] at h
    cases hb : braceSplit cs with
    | some pr =>
      rw [hb] at h
      cases h
      simpa using ih pr.1 pr.2 (by rw [hb])
    | none =>
      rw [hb] at h
      by_cases hc : (c == '}') = true
      · rw [if_pos hc] at h
        obtain ⟨rfl, rfl⟩ := Prod.mk.injEq .. ▸ Option.some.inj h
        simp
      · rw [if_neg hc] at h
        exact absurd h (by simp)

theorem matchArgs_chars {r8 args rest : List Char}
    (h : matchArgs r8 = some (args, rest)) :
    ∀ c ∈ args, c = '{' ∨ isDotChar c = true := by
  match r8 with
  | [] => simp [matchArgs] at h
  | b :: r9 =>
    simp only [matchArgs] at h
    by_cases hb : (b == '{') = true
    · rw [if_pos hb] at h
      cases hs : braceSplit (r9.takeWhile isDotChar) with
      | none => rw [hs] at h; exact absurd h (by simp)
      | some pr =>
        rw [hs] at h
        obtain ⟨p, after⟩ := pr
        obtain ⟨rfl, rfl⟩ := Prod.mk.injEq .. ▸ Option.some.inj h
        intro c hc
        rcases List.mem_cons.mp hc with hc | hc
        · exact Or.inl hc
        · have hmem : c ∈ List.takeWhile isDotChar r9 := by
            rw [← braceSplit_append _ _ _ hs]
            exact List.mem_append_left _ hc
          exact Or.inr (List.mem_takeWhile_imp hmem)
    · rw [if_neg hb] at h
      exact absurd h (by simp)

theorem matchAt_args {s : List Char} {n a : String} {rest : List Char}
    (h : matchAt s = some (n, a, rest)) :
    ∀ c ∈ a.data, c = '{' ∨ isDotChar c = true := by
  simp only [matchAt, Option.bind_eq_bind, Option.bind_eq_some, Option.pure_def,
    Option.some.injEq] at h
  obtain ⟨r1, -, r3, -, ⟨nm, r6⟩, -, r8, -, ⟨args, rest'⟩, hargs, heq⟩ := h
  obtain ⟨-, rfl, -⟩ := Prod.mk.injEq .. ▸ heq
  exact matchArgs_chars hargs

theorem scanCalls_args :
    ∀ (fuel : Nat) (s : List Char) (n a : String),
      (n, a) ∈ scanCalls fuel s →
      ∀ c ∈ a.data, c = '{' ∨ isDotChar c = true := by
  intro fuel
  induction fuel with
  | zero => intro s n a h; simp [scanCalls] at h
  | succ fuel ih =>
    intro s n a h
    match s with
    | [] => simp [scanCalls] at h
    | c :: cs =>
      simp only [scanCalls] at h
      cases hm : matchAt (c :: cs) with
      | none => rw [hm] at h; exact ih cs n a h
      | some t =>
        rcases t with ⟨n', a', rest⟩
        rw [hm] at h
        rcases List.mem_cons.mp h with h | h
        · cases h; exact matchAt_args hm
        · exact ih rest n a h

/-! ### Claim theorems -/

/-- C5 (amended): manual tool-call parsing scans assistant text for the
`TOOL_CALL:` marker followed by a quoted tool name and a brace-delimited
argument text; EVERY match yields a synthetic `ToolCall` with a freshly
generated id and the raw matched argument text — a match whose arguments
are malformed JSON is not skipped at parse time (the JSON error surfaces
later, during tool execution). -/
theorem claim_C5_manual_parse (idGen : Nat → String) (idCtr : Nat)
    (content : String) :
    (parseManualToolCalls idGen idCtr content).map
        (fun tc => (tc.name, tc.arguments)) = manualMatches content ∧
    (parseManualToolCalls idGen idCtr content).map ToolCall.id =
      (List.range (manualMatches content).length).map
        (fun i => idGen (idCtr + i)) :=
  buildCalls_fields idGen (manualMatches content) idCtr

/-- C5 counterexample: a match whose argument text `{bad}` is not valid
JSON still produces a `ToolCall` (with the raw text as arguments), rather
than being silently skipped. -/
theorem claim_C5_counterexample :
    parseManualToolCalls idGen0 0
        "TOOL_CALL: name=\"read_file\" arguments=\x7bbad\x7d" =
      [{ id := "call_0", name := "read_file", arguments := "\x7bbad\x7d" }] := by
  decide

/-- C7: `appendToolFallback` returns the assistant text unchanged when no
tool outputs were accumulated or when the text already carries a download
reference (`/api/download/`) or hyperlink marker (`<a` + whitespace);
otherwise it appends the joined tool outputs after the text. -/
theorem claim_C7_fallback_merge (finalContent : String)
    (toolOutputs : List String) :
    (toolOutputs = [] → appendToolFallback finalContent toolOutputs = finalContent) ∧
    (hasDownload finalContent = true →
      appendToolFallback finalContent toolOutputs = finalContent) ∧
    (toolOutputs ≠ [] → hasDownload finalContent = false →
      appendToolFallback finalContent toolOutputs =
        finalContent ++ "\n\n" ++ String.intercalate "\n\n" toolOutputs) := by
  refine ⟨fun h => by simp [appendToolFallback, h], fun h => ?_, fun h1 h2 => ?_⟩
  · by_cases he : toolOutputs.isEmpty <;> simp [appendToolFallback, he, h]
  · have he : toolOutputs.isEmpty = false := by
      cases toolOutputs with
      | nil => exact absurd rfl h1
      | cons x xs => rfl
    simp [appendToolFallback, he, h2]

/-- C7 witness: the three branches at concrete inputs. -/
theorem claim_C7_witness :
    appendToolFallback "hola" [] = "hola" ∧
    appendToolFallback "<a href=x" ["out"] = "<a href=x" ∧
    appendToolFallback "hola" ["out"] =
      "hola" ++ "\n\n" ++ String.intercalate "\n\n" ["out"] :=
  ⟨(claim_C7_fallback_merge "hola" []).1 rfl,
   (claim_C7_fallback_merge "<a href=x" ["out"]).2.1 (by decide),
   (claim_C7_fallback_merge "hola" ["out"]).2.2 (by decide) (by decide)⟩

/-- C10 (amended): the argument capture of the manual tool-call regex
(`.` does not cross line terminators) confines every recognized argument
object to a single line: any produced match's argument text contains no
newline.  (The marker, name and `arguments=` may still be separated by
arbitrary whitespace, newlines included — see the counterexample.) -/
theorem claim_C10_args_single_line (content name args : String)
    (h : (name, args) ∈ manualMatches content) :
    ∀ c ∈ args.data, c ≠ '\n' ∧ c ≠ '\r' := by
  intro c hc
  rcases scanCalls_args _ _ _ _ h c hc with h' | h'
  · subst h'; exact ⟨by decide, by decide⟩
  · unfold isDotChar at h'
    constructor <;> (intro he; subst he; simp at h')

/-- C10 witness: the single-line guarantee at a concrete match and a
concrete argument character. -/
theorem claim_C10_witness :
    ('\x7b' : Char) ≠ '\n' ∧ ('\x7b' : Char) ≠ '\r' :=
  claim_C10_args_single_line "TOOL_CALL: name=\"x\" arguments=\x7b\x7d" "x"
    "\x7b\x7d" (by decide) '\x7b' (by decide)

/-- C10 counterexample: a manual call whose marker and name sit on
DIFFERENT lines (`\s*` crosses newlines) is still recognized, refuting
"recognized only when the marker, the name and the arguments appear on a
single line". -/
theorem claim_C10_counterexample :
    manualMatches "TOOL_CALL:\nname=\"x\" arguments=\x7b\x7d" =
      [("x", "\x7b\x7d")] := by decide

theorem execEvents_mem {exec : ToolCall → String} {toolCalls : List ToolCall}
    {sched : List Nat} {x : Nat × String}
    (h : x ∈ execEvents exec toolCalls sched) :
    ∃ c, toolCalls.get? x.1 = some c ∧ x.2 = exec c := by
  obtain ⟨i, -, hf⟩ := List.mem_filterMap.mp h
  cases hg : toolCalls.get? i with
  | none => rw [hg] at hf; exact absurd hf (by simp)
  | some c =>
    rw [hg] at hf
    have hx : x = (i, exec c) := (Option.some.inj hf).symm
    subst hx
    exact ⟨c, hg, rfl⟩

theorem execEvents_find {exec : ToolCall → String} {toolCalls : List ToolCall}
    {sched : List Nat} {i : Nat} {c : ToolCall}
    (hi : i ∈ sched) (hc : toolCalls.get? i = some c) :
    (execEvents exec toolCalls sched).find? (fun e => e.1 == i) =
      some (i, exec c) := by
  have hmem : (i, exec c) ∈ execEvents exec toolCalls sched :=
    List.mem_filterMap.mpr ⟨i, hi, by rw [hc]; rfl⟩
  have hsome : ((execEvents exec toolCalls sched).find?
      (fun e => e.1 == i)).isSome :=
    List.find?_isSome.mpr ⟨(i, exec c), hmem, by simp⟩
  obtain ⟨x, hx⟩ := Option.isSome_iff_exists.mp hsome
  have hkey : x.1 = i := by simpa using List.find?_some hx
  obtain ⟨c', hc', hv⟩ := execEvents_mem (List.mem_of_find?_eq_some hx)
  rw [hkey] at hc'
  rw [hc] at hc'
  rw [hx]
  cases Option.some.inj hc'
  exact congrArg some (Prod.ext hkey hv)

theorem mapM_of_forall_some (l : List Nat) (f : Nat → Option String)
    (g : Nat → String) (h : ∀ i ∈ l, f i = some (g i)) :
    l.mapM f = some (l.map g) := by
  induction l with
  | nil => rfl
  | cons a l ih =>
    rw [List.mapM_cons, h a (List.mem_cons_self a l),
      ih fun i hi => h i (List.mem_cons_of_mem a hi)]
    rfl

theorem range_map_getD (exec : ToolCall → String) (d : ToolCall) :
    ∀ toolCalls : List ToolCall,
      (List.range toolCalls.length).map
          (fun i => exec ((toolCalls.get? i).getD d)) =
        toolCalls.map exec := by
  intro toolCalls
  induction toolCalls with
  | nil => rfl
  | cons c cs ih =>
    simp only [List.length_cons, List.range_succ_eq_map, List.map_cons,
      List.map_map]
    have hstep : ∀ i ∈ List.range cs.length,
        ((fun i => exec (((c :: cs).get? i).getD d)) ∘ Nat.succ) i =
          (fun i => exec ((cs.get? i).getD d)) i := fun i _ => rfl
    rw [List.map_congr_left hstep, ih]
    rfl

/-- C4: all tool requests of one model response execute concurrently
(modelled by an arbitrary completion schedule), and `Promise.all`'s
positional join makes the result list — hence the appended history — a
function of the request order only: exactly one `role:"tool"` message per
request, in request order, each carrying its request's id, whatever the
completion order was. -/
theorem claim_C4_parallel_join (exec : ToolCall → String) (conv : List Message)
    (toolCalls : List ToolCall) (sched : List Nat)
    (hperm : sched.Perm (List.range toolCalls.length)) :
    settleAll toolCalls.length (execEvents exec toolCalls sched) =
      some (toolCalls.map exec) ∧
    (runToolCalls exec conv toolCalls).2 =
      conv ++ toolCalls.map (fun c => Message.tool c.id (exec c)) ∧
    (runToolCalls exec conv toolCalls).2.length =
      conv.length + toolCalls.length ∧
    (runToolCalls exec conv toolCalls).1 = toolCalls.map exec := by
  refine ⟨?_, by simp [runToolCalls], by simp [runToolCalls], by simp [runToolCalls]⟩
  unfold settleAll
  rw [mapM_of_forall_some _ _ (fun i => exec ((toolCalls.get? i).getD tcRead)) ?_,
    range_map_getD]
  intro i hi
  have hlt : i < toolCalls.length := List.mem_range.mp hi
  have hc : toolCalls.get? i = some (toolCalls.get ⟨i, hlt⟩) :=
    List.get?_eq_get hlt
  have hsched : i ∈ sched := hperm.mem_iff.mpr hi
  rw [execEvents_find hsched hc]
  show Option.map (fun e => e.2) (some (i, exec (toolCalls.get ⟨i, hlt⟩))) =
      some (exec ((toolCalls.get? i).getD tcRead))
  rw [hc]
  rfl

/-- C4 witness: two requests completing in reverse order still settle
positionally and append in request order. -/
theorem claim_C4_witness :
    settleAll 2 (execEvents (fun c => c.name) [tcRead, tcW] [1, 0]) =
      some ["read_file", "fetch_url"] ∧
    (runToolCalls (fun c => c.name) [] [tcRead, tcW]).2 =
      [Message.tool "c1" "read_file", Message.tool "c2" "fetch_url"] := by
  obtain ⟨h1, h2, -, -⟩ :=
    claim_C4_parallel_join (fun c => c.name) [] [tcRead, tcW] [1, 0] (by decide)
  exact ⟨by simpa using h1, by simpa [tcRead, tcW] using h2⟩

theorem getEntry_cons {β : Type} (k : String) (v : β) (m : List (String × β))
    (t : String) :
    getEntry ((k, v) :: m) t = if k == t then some v else getEntry m t := by
  by_cases h : (k == t) = true <;> simp [getEntry, List.find?_cons, h]

theorem setEntry_of_fresh {β : Type} (m : List (String × β)) (k : String)
    (v : β) (h : m.any (fun e => e.1 == k) = false) :
    setEntry m k v = m ++ [(k, v)] := by
  simp [setEntry, h]

theorem tokenTable_length (uuid : Nat → String) :
    ∀ (paths : List String) (base : Nat),
      (tokenTable uuid base paths).length = paths.length := by
  intro paths
  induction paths with
  | nil => intro base; rfl
  | cons p ps ih => intro base; simp [tokenTable, ih]

theorem runCreates_entries (uuid : Nat → String)
    (hinj : ∀ i j, uuid i = uuid j → i = j) :
    ∀ (paths : List String) (st : DownloadStore),
      (∀ e ∈ st.entries, ∃ j, j < st.uuidCtr ∧ e.1 = uuid j) →
      (paths.foldl (fun st p => (createDownloadToken uuid st p).2) st).entries =
          st.entries ++ tokenTable uuid st.uuidCtr paths ∧
      (paths.foldl (fun st p => (createDownloadToken uuid st p).2) st).uuidCtr =
          st.uuidCtr + paths.length := by
  intro paths
  induction paths with
  | nil => intro st h; simp [tokenTable]
  | cons p ps ih =>
    intro st h
    have hfresh : st.entries.any (fun e => e.1 == uuid st.uuidCtr) = false := by
      by_contra hcon
      rw [Bool.not_eq_false, List.any_eq_true] at hcon
      obtain ⟨e, he, hk⟩ := hcon
      obtain ⟨j, hj, hej⟩ := h e he
      have heq : e.1 = uuid st.uuidCtr := by simpa using hk
      exact absurd (hinj j st.uuidCtr (hej.symm.trans heq)) (Nat.ne_of_lt hj)
    have hstep : (createDownloadToken uuid st p).2 =
        ⟨st.entries ++ [(uuid st.uuidCtr, p)], st.uuidCtr + 1⟩ := by
      simp [createDownloadToken, setEntry_of_fresh _ _ _ hfresh]
    rw [List.foldl_cons, hstep]
    have hinv : ∀ e ∈ st.entries ++ [(uuid st.uuidCtr, p)],
        ∃ j, j < st.uuidCtr + 1 ∧ e.1 = uuid j := by
      intro e he
      rcases List.mem_append.mp he with he | he
      · obtain ⟨j, hj, hej⟩ := h e he
        exact ⟨j, Nat.lt_succ_of_lt hj, hej⟩
      · rw [List.mem_singleton.mp he]
        exact ⟨st.uuidCtr, Nat.lt_succ_self _, rfl⟩
    obtain ⟨h1, h2⟩ := ih ⟨st.entries ++ [(uuid st.uuidCtr, p)], st.uuidCtr + 1⟩ hinv
    refine ⟨?_, ?_⟩
    · rw [h1]
      simp [tokenTable, List.append_assoc]
    · rw [h2]
      simp [List.length_cons]
      omega

theorem getEntry_tokenTable_none (uuid : Nat → String) :
    ∀ (paths : List String) (base : Nat) (t : String),
      (∀ i, i < paths.length → uuid (base + i) ≠ t) →
      getEntry (tokenTable uuid base paths) t = none := by
  intro paths
  induction paths with
  | nil => intro base t _; rfl
  | cons p ps ih =>
    intro base t h
    rw [tokenTable, getEntry_cons, if_neg ?_]
    · refine ih (base + 1) t fun i hi => ?_
      rw [show base + 1 + i = base + (i + 1) by omega]
      exact h (i + 1) (by simpa using Nat.succ_lt_succ hi)
    · simp only [beq_iff_eq]
      simpa using h 0 (by simp)


theorem getEntry_tokenTable_at (uuid : Nat → String)
    (hinj : ∀ i j, uuid i = uuid j → i = j) :
    ∀ (paths : List String) (base i : Nat) (h : i < paths.length),
      getEntry (tokenTable uuid base paths) (uuid (base + i)) =
        some (paths.get ⟨i, h⟩) := by
  intro paths
  induction paths with
  | nil => intro base i h; exact absurd h (by simp)
  | cons p ps ih =>
    intro base i h
    cases i with
    | zero =>
      rw [tokenTable, getEntry_cons, if_pos (by simp)]
      rfl
    | succ i =>
      rw [tokenTable, getEntry_cons, if_neg ?_]
      · rw [show base + (i + 1) = base + 1 + i by omega]
        exact ih (base + 1) i (Nat.lt_of_succ_lt_succ h)
      · simp only [beq_iff_eq]
        intro hcon
        have := hinj base (base + (i + 1)) hcon
        omega

/-- C8: for the download token store built by any sequence of `create`
calls (UUID freshness modelled by an injective oracle): `lookup` on a
token never issued returns absent; `lookup` on the i-th issued token
returns the file path passed to that `create` (stable: `getDownloadPath`
is a pure read that returns the same answer on every repetition and does
not produce a new store); and the store holds exactly one entry per
`create` — nothing is overwritten or removed. -/
theorem claim_C8_download_store (uuid : Nat → String)
    (hinj : ∀ i j, uuid i = uuid j → i = j) (paths : List String) :
    (∀ t, (∀ i, i < paths.length → uuid i ≠ t) →
        getDownloadPath (runCreates uuid paths) t = none) ∧
    (∀ i (h : i < paths.length),
        getDownloadPath (runCreates uuid paths) (uuid i) =
          some (paths.get ⟨i, h⟩)) ∧
    (runCreates uuid paths).entries.length = paths.length := by
  obtain ⟨h1, -⟩ :=
    runCreates_entries uuid hinj paths emptyDownloads
      (by simp [emptyDownloads])
  refine ⟨?_, ?_, ?_⟩
  · intro t ht
    unfold getDownloadPath runCreates
    rw [show emptyDownloads = (⟨[], 0⟩ : DownloadStore) from rfl] at h1 ⊢
    rw [h1]
    simpa using getEntry_tokenTable_none uuid paths 0 t (by simpa using ht)
  · intro i hlt
    unfold getDownloadPath runCreates
    rw [show emptyDownloads = (⟨[], 0⟩ : DownloadStore) from rfl] at h1 ⊢
    rw [h1]
    have := getEntry_tokenTable_at uuid hinj paths 0 i hlt
    simpa using this
  · unfold runCreates
    rw [show emptyDownloads = (⟨[], 0⟩ : DownloadStore) from rfl] at h1 ⊢
    rw [h1]
    simpa using tokenTable_length uuid paths 0

/-- C8 witness: two creates; an unissued token is absent, the second
token maps to the second path. -/
theorem claim_C8_witness :
    getDownloadPath (runCreates uuidW ["a.txt", "b.txt"]) "zz" = none ∧
    getDownloadPath (runCreates uuidW ["a.txt", "b.txt"]) (uuidW 1) =
      some "b.txt" := by
  have hinj : ∀ i j, uuidW i = uuidW j → i = j := by
    intro i j h
    simpa [uuidW] using congrArg (fun s => s.data.length) h
  refine ⟨(claim_C8_download_store uuidW hinj _).1 "zz" ?_,
    (claim_C8_download_store uuidW hinj ["a.txt", "b.txt"]).2.1 1 (by decide)⟩
  intro i hi
  have hi2 : i < 2 := by simpa using hi
  interval_cases i <;> decide

theorem requestMessage_ok {env : Env} {trace : List Bool}
    {msg : Option ModelMessage}
    (h : env.respond trace.length = ModelResult.ok msg)
    (model : String) (allowTools : Bool) (ts : Option Bool)
    (reg : List (String × Bool)) :
    requestMessage env model allowTools ts reg trace =
      if allowTools && ts.isNone && msgToolCallsPresent msg then
        ⟨msg, some true, setEntry reg model true, trace ++ [allowTools]⟩
      else ⟨msg, ts, reg, trace ++ [allowTools]⟩ := by
  simp only [requestMessage, h]

theorem requestMessage_err_no_retry {env : Env} {trace : List Bool}
    {e : String} (h : env.respond trace.length = ModelResult.err e)
    (model : String) (allowTools : Bool) (ts : Option Bool)
    (reg : List (String × Bool))
    (hn : (isToolError e && allowTools) = false) :
    requestMessage env model allowTools ts reg trace =
      ⟨none, ts, reg, trace ++ [allowTools]⟩ := by
  simp only [requestMessage, h, hn, Bool.false_eq_true, if_false]

theorem requestMessage_err_retry_ok {env : Env} {trace : List Bool}
    {e : String} {msg2 : Option ModelMessage}
    (h1 : env.respond trace.length = ModelResult.err e)
    (he : isToolError e = true)
    (h2 : env.respond (trace.length + 1) = ModelResult.ok msg2)
    (model : String) (ts : Option Bool) (reg : List (String × Bool)) :
    requestMessage env model true ts reg trace =
      ⟨msg2, some false, setEntry reg model false, trace ++ [true, false]⟩ := by
  simp only [requestMessage, h1, he, Bool.and_self, if_true, List.length_append,
    List.length_cons, List.length_nil, Nat.zero_add, h2, List.append_assoc,
    List.cons_append, List.nil_append]

theorem requestMessage_err_retry_err {env : Env} {trace : List Bool}
    {e e2 : String}
    (h1 : env.respond trace.length = ModelResult.err e)
    (he : isToolError e = true)
    (h2 : env.respond (trace.length + 1) = ModelResult.err e2)
    (model : String) (ts : Option Bool) (reg : List (String × Bool)) :
    requestMessage env model true ts reg trace =
      ⟨none, some false, setEntry reg model false, trace ++ [true, false]⟩ := by
  simp only [requestMessage, h1, he, Bool.and_self, if_true, List.length_append,
    List.length_cons, List.length_nil, Nat.zero_add, h2, List.append_assoc,
    List.cons_append, List.nil_append]

theorem buildCalls_length (idGen : Nat → String) :
    ∀ (ms : List (String × String)) (k : Nat),
      (buildCalls idGen k ms).length = ms.length := by
  intro ms
  induction ms with
  | nil => intro k; rfl
  | cons m ms ih => intro k; simp [buildCalls, ih]

theorem buildCalls_eq_nil (idGen : Nat → String) (k : Nat)
    (ms : List (String × String)) :
    buildCalls idGen k ms = [] ↔ ms = [] := by
  cases ms <;> simp [buildCalls]

theorem sendLoop_toolreq (env : Env) (model : String) (hasImages : Bool)
    (htool : alwaysToolReq env) :
    ∀ (fuel : Nat) (st : AgentState) (outs : List String) (tr : List Bool),
      ((sendLoop env model hasImages fuel st outs tr).reply = none ∨
        (sendLoop env model hasImages fuel st outs tr).reply = some limitMessage) ∧
      (sendLoop env model hasImages fuel st outs tr).trace.length ≤
        tr.length + fuel + 1 ∧
      (st.toolsSupported = some false →
        (sendLoop env model hasImages fuel st outs tr).trace.length ≤
          tr.length + fuel) ∧
      (allOk env →
        (sendLoop env model hasImages fuel st outs tr).reply = some limitMessage ∧
        (sendLoop env model hasImages fuel st outs tr).trace.length =
          tr.length + fuel) := by
  intro fuel
  induction fuel with
  | zero =>
    intro st outs tr
    exact ⟨Or.inr rfl, by simp only [sendLoop]; omega,
      fun _ => by simp only [sendLoop]; omega,
      fun _ => ⟨rfl, by simp only [sendLoop]; omega⟩⟩
  | succ fuel ih =>
    intro st outs tr
    cases hresp : env.respond tr.length with
    | ok msg =>
      obtain ⟨m, rfl, htc⟩ := htool tr.length msg hresp
      have hcond : ((m.tool_calls.getD []).isEmpty &&
          (parseManualToolCalls env.idGen st.idCtr (m.content.getD "")).isEmpty) =
            false := by
        rcases htc with h | h
        · have h1 : (m.tool_calls.getD []).isEmpty = false := by
            cases hx : m.tool_calls.getD [] with
            | nil => exact absurd hx h
            | cons a l => rfl
          simp [h1]
        · have h1 : (parseManualToolCalls env.idGen st.idCtr
              (m.content.getD "")).isEmpty = false := by
            cases hx : parseManualToolCalls env.idGen st.idCtr (m.content.getD "") with
            | nil =>
              exact absurd ((buildCalls_eq_nil env.idGen st.idCtr
                (manualMatches (m.content.getD ""))).mp hx) h
            | cons a l => rfl
          simp [h1]
      simp only [sendLoop, requestMessage_ok hresp, apply_ite ReqResult.message,
        apply_ite ReqResult.toolsSupported, apply_ite ReqResult.registry,
        apply_ite ReqResult.trace, ite_self, hcond, Bool.false_eq_true, if_false]
      refine ⟨(ih _ _ _).1, ?_, ?_, ?_⟩
      · refine le_trans (ih _ _ _).2.1 ?_
        simp only [List.length_append, List.length_cons, List.length_nil]
        omega
      · intro hts
        simp only [hts, beq_self_eq_true, Bool.not_true, Bool.and_false,
          Bool.false_eq_true, if_false, Option.isNone_some, Bool.false_and,
          Bool.and_self]
        refine le_trans ((ih _ _ _).2.2.1 rfl) ?_
        simp only [List.length_append, List.length_cons, List.length_nil]
        omega
      · intro hall
        obtain ⟨hr, hl⟩ := (ih _ _ _).2.2.2 hall
        refine ⟨hr, ?_⟩
        rw [hl]
        simp only [List.length_append, List.length_cons, List.length_nil]
        omega
    | err e =>
      by_cases hb : (!hasImages && !(st.toolsSupported == some false)) = true
      · by_cases hte : isToolError e = true
        · cases hresp2 : env.respond (tr.length + 1) with
          | ok msg2 =>
            obtain ⟨m2, rfl, htc2⟩ := htool _ msg2 hresp2
            have hcond : ((m2.tool_calls.getD []).isEmpty &&
                (parseManualToolCalls env.idGen st.idCtr (m2.content.getD "")).isEmpty) =
                  false := by
              rcases htc2 with h | h
              · have h1 : (m2.tool_calls.getD []).isEmpty = false := by
                  cases hx : m2.tool_calls.getD [] with
                  | nil => exact absurd hx h
                  | cons a l => rfl
                simp [h1]
              · have h1 : (parseManualToolCalls env.idGen st.idCtr
                    (m2.content.getD "")).isEmpty = false := by
                  cases hx : parseManualToolCalls env.idGen st.idCtr (m2.content.getD "") with
                  | nil =>
                    exact absurd ((buildCalls_eq_nil env.idGen st.idCtr
                      (manualMatches (m2.content.getD ""))).mp hx) h
                  | cons a l => rfl
                simp [h1]
            simp only [sendLoop, hb, requestMessage_err_retry_ok hresp hte hresp2,
              hcond, Bool.false_eq_true, if_false]
            refine ⟨(ih _ _ _).1, ?_, ?_, ?_⟩
            · refine le_trans ((ih _ _ _).2.2.1 rfl) ?_
              simp only [List.length_append, List.length_cons, List.length_nil]
              omega
            · intro hts
              rw [hts] at hb
              simp at hb
            · intro hall
              obtain ⟨msgx, hmx⟩ := hall tr.length
              rw [hresp] at hmx
              exact absurd hmx (by simp)
          | err e2 =>
            simp only [sendLoop, hb, requestMessage_err_retry_err hresp hte hresp2]
            refine ⟨Or.inl trivial, ?_, ?_, ?_⟩
            · simp only [List.length_append, List.length_cons, List.length_nil]
              omega
            · intro hts
              rw [hts] at hb
              simp at hb
            · intro hall
              obtain ⟨msgx, hmx⟩ := hall tr.length
              rw [hresp] at hmx
              exact absurd hmx (by simp)
        · have hte' : isToolError e = false := by
            revert hte; cases isToolError e <;> simp
          have hn : (isToolError e &&
              (!hasImages && !(st.toolsSupported == some false))) = false := by
            simp [hte']
          simp only [sendLoop,
            requestMessage_err_no_retry hresp model _ st.toolsSupported st.registry hn]
          refine ⟨Or.inl trivial, ?_, ?_, ?_⟩
          · simp only [List.length_append, List.length_cons, List.length_nil]
            omega
          · intro hts
            simp only [List.length_append, List.length_cons, List.length_nil]
            omega
          · intro hall
            obtain ⟨msgx, hmx⟩ := hall tr.length
            rw [hresp] at hmx
            exact absurd hmx (by simp)
      · have hbf : (!hasImages && !(st.toolsSupported == some false)) = false := by
          revert hb; cases (!hasImages && !(st.toolsSupported == some false)) <;> simp
        have hn : (isToolError e &&
            (!hasImages && !(st.toolsSupported == some false))) = false := by
          simp [hbf]
        simp only [sendLoop,
          requestMessage_err_no_retry hresp model _ st.toolsSupported st.registry hn]
        refine ⟨Or.inl trivial, ?_, ?_, ?_⟩
        · simp only [List.length_append, List.length_cons, List.length_nil]
          omega
        · intro hts
          simp only [List.length_append, List.length_cons, List.length_nil]
          omega
        · intro hall
          obtain ⟨msgx, hmx⟩ := hall tr.length
          rw [hresp] at hmx
          exact absurd hmx (by simp)


theorem str_isEmpty_false {c : String} (hc : c ≠ "") : c.isEmpty = false := by
  cases hemp : c.isEmpty
  · rfl
  · exact absurd (Iff.mp (String.isEmpty_iff c) hemp) hc

theorem getEntry_setEntry {β : Type} (m : List (String × β)) (k : String)
    (v : β) : getEntry (setEntry m k v) k = some v := by
  induction m with
  | nil => simp [setEntry, getEntry_cons]
  | cons e m ih =>
    by_cases he : (e.1 == k) = true
    · have hany : ((e :: m).any fun e => e.1 == k) = true := by
        simp [List.any_cons, he]
      simp only [setEntry, hany, if_true, List.map_cons, he, if_pos]
      rw [getEntry_cons]
      simp
    · cases hm : (m.any fun e => e.1 == k) with
      | true =>
        have hany : ((e :: m).any fun e => e.1 == k) = true := by
          simp [List.any_cons, hm]
        simp only [setEntry, hany, if_true, List.map_cons, he, if_neg,
          Bool.false_eq_true, if_false]
        rw [getEntry_cons, if_neg (by simp_all), ← show setEntry m k v =
          m.map fun e => if e.1 == k then (k, v) else e by simp [setEntry, hm]]
        exact ih
      | false =>
        have hany : ((e :: m).any fun e => e.1 == k) = false := by
          simp [List.any_cons, hm]
          simpa using he
        simp only [setEntry, hany, Bool.false_eq_true, if_false, List.cons_append]
        rw [getEntry_cons, if_neg (by simp_all), ← show setEntry m k v =
          m ++ [(k, v)] by simp [setEntry, hm]]
        exact ih

theorem envC2_toolreq : alwaysToolReq envC2 := by
  intro n msg h
  cases n with
  | zero => exact absurd h (by simp [envC2])
  | succ k =>
    simp only [envC2] at h
    injection h with h2
    subst h2
    exact ⟨_, rfl, Or.inl (by simp)⟩

/-- C2 (amended): for every backend whose every SUCCESSFUL response
contains a new tool request, `sendMessage` never returns any reply other
than the fixed limit-reached message (it may return null when a model
request fails), and the engine issues at most `MAX_ITERATIONS + 1 = 6`
model calls — the single extra call coming from the tools-unsupported
fallback retry, which does not consume an iteration slot.  When every
response is successful the input is either rejected (no call, null reply)
or the limit message is returned after exactly `MAX_ITERATIONS = 5`
calls. -/
theorem claim_C2_amended (env : Env) (model : String) (st : AgentState)
    (prompt : UserContent) (htool : alwaysToolReq env) :
    ((sendMessage env model st prompt).reply = none ∨
      (sendMessage env model st prompt).reply = some limitMessage) ∧
    (sendMessage env model st prompt).trace.length ≤ MAX_ITERATIONS + 1 ∧
    (allOk env →
      ((sendMessage env model st prompt).trace = [] ∧
        (sendMessage env model st prompt).reply = none) ∨
      ((sendMessage env model st prompt).reply = some limitMessage ∧
        (sendMessage env model st prompt).trace.length = MAX_ITERATIONS)) := by
  cases prompt with
  | parts ps =>
    by_cases hp : ps.isEmpty = true
    · simp only [sendMessage, hp, if_true]
      exact ⟨Or.inl (by trivial), by simp [MAX_ITERATIONS],
        fun _ => Or.inl ⟨by trivial, by trivial⟩⟩
    · simp only [sendMessage, hp, Bool.false_eq_true, if_false]
      obtain ⟨h1, h2, -, h4⟩ := sendLoop_toolreq env model _ htool MAX_ITERATIONS
        { st with conversation :=
            st.conversation ++ [Message.user (UserContent.parts ps)] } [] []
      refine ⟨h1, by simpa using h2, fun hall => Or.inr ?_⟩
      obtain ⟨hr, hl⟩ := h4 hall
      exact ⟨hr, by simpa using hl⟩
  | str s =>
    by_cases hp : (trimJs s).isEmpty = true
    · simp only [sendMessage, hp, if_true]
      exact ⟨Or.inl (by trivial), by simp [MAX_ITERATIONS],
        fun _ => Or.inl ⟨by trivial, by trivial⟩⟩
    · simp only [sendMessage, hp, Bool.false_eq_true, if_false]
      obtain ⟨h1, h2, -, h4⟩ := sendLoop_toolreq env model false htool MAX_ITERATIONS
        { st with conversation :=
            st.conversation ++ [Message.user (UserContent.str (trimJs s))] } [] []
      refine ⟨h1, by simpa using h2, fun hall => Or.inr ?_⟩
      obtain ⟨hr, hl⟩ := h4 hall
      exact ⟨hr, by simpa using hl⟩

/-- C2 witness: the amended claim at a concrete backend (first response a
tools-unsupported error, then native tool requests forever). -/
theorem claim_C2_witness :
    ((sendMessage envC2 "m" st0 (UserContent.str "hola")).reply = none ∨
      (sendMessage envC2 "m" st0 (UserContent.str "hola")).reply =
        some limitMessage) ∧
    (sendMessage envC2 "m" st0 (UserContent.str "hola")).trace.length ≤
      MAX_ITERATIONS + 1 :=
  ⟨(claim_C2_amended envC2 "m" st0 (UserContent.str "hola") envC2_toolreq).1,
   (claim_C2_amended envC2 "m" st0 (UserContent.str "hola") envC2_toolreq).2.1⟩

/-- C2 counterexample: with the first response a tools-unsupported error
(so every SUCCESSFUL response carries a tool request), the engine issues
SIX model calls — more than `MAX_ITERATIONS = 5` — before returning the
limit-reached message: the fallback retry call does not consume an
iteration slot. -/
theorem claim_C2_counterexample :
    (sendMessage envC2 "m" st0 (UserContent.str "hola")).reply =
      some limitMessage ∧
    (sendMessage envC2 "m" st0 (UserContent.str "hola")).trace =
      [true, false, false, false, false, false] := by decide


theorem sendLoop_no_tools (env : Env) (model : String) (hasImages : Bool) :
    ∀ (fuel : Nat) (st : AgentState) (outs : List String) (tr : List Bool),
      st.toolsSupported = some false → (∀ b ∈ tr, b = false) →
      ∀ b ∈ (sendLoop env model hasImages fuel st outs tr).trace, b = false := by
  intro fuel
  induction fuel with
  | zero => intro st outs tr _ htr; exact htr
  | succ fuel ih =>
    intro st outs tr hts htr
    have htr' : ∀ b ∈ tr ++ [false], b = false := by
      intro b hbm
      rcases List.mem_append.mp hbm with h | h
      · exact htr b h
      · exact List.mem_singleton.mp h
    cases hresp : env.respond tr.length with
    | ok msg =>
      cases msg with
      | none =>
        simp only [sendLoop, hts, requestMessage_ok hresp, beq_self_eq_true,
          Bool.not_true, Bool.and_false, Bool.false_and, Bool.false_eq_true,
          if_false]
        exact htr'
      | some m =>
        simp only [sendLoop, hts, requestMessage_ok hresp, beq_self_eq_true,
          Bool.not_true, Bool.and_false, Bool.false_and, Bool.false_eq_true,
          if_false]
        split
        · split
          · exact htr'
          · split
            · exact htr'
            · exact htr'
        · exact ih _ _ _ rfl htr'
    | err e =>
      simp only [sendLoop, hts, beq_self_eq_true, Bool.not_true, Bool.and_false,
        requestMessage_err_no_retry hresp model false (some false) st.registry
          (by simp)]
      exact htr'

theorem sendMessage_no_tools (env : Env) (model : String) (st : AgentState)
    (prompt : UserContent) (hts : st.toolsSupported = some false) :
    ∀ b ∈ (sendMessage env model st prompt).trace, b = false := by
  cases prompt with
  | parts ps =>
    by_cases hp : ps.isEmpty = true
    · simp [sendMessage, hp]
    · simp only [sendMessage, hp, Bool.false_eq_true, if_false]
      exact sendLoop_no_tools env model _ MAX_ITERATIONS _ [] [] hts (by simp)
  | str s =>
    by_cases hp : (trimJs s).isEmpty = true
    · simp [sendMessage, hp]
    · simp only [sendMessage, hp, Bool.false_eq_true, if_false]
      exact sendLoop_no_tools env model false MAX_ITERATIONS _ [] [] hts (by simp)

/-- C3: when the first model request (made with tools offered, capability
unknown) fails with a tools-unsupported error message and the immediate
retry without tools succeeds with plain text, `sendMessage` returns the
second attempt's content after exactly two model calls in the same round
(traced `[true, false]`: tools offered, then disabled — no iteration-cap
slot consumed); capability `unsupported` is recorded in the instance flag
and the process-wide registry, so a fresh agent for the same model starts
flagged `unsupported`, and every model request of any later `sendMessage`
on this state is made with tools disabled. -/
theorem claim_C3_capability_fallback (env : Env) (model sp : String)
    (reg0 : List (String × Bool)) (s e c : String)
    (hreg : getEntry reg0 model = none)
    (hs : trimJs s ≠ "")
    (h0 : env.respond 0 = ModelResult.err e)
    (he : isToolError e = true)
    (h1 : env.respond 1 = ModelResult.ok (some ⟨some c, none⟩))
    (hc : c ≠ "")
    (hm : manualMatches c = []) :
    (sendMessage env model (mkAgent reg0 model sp) (UserContent.str s)).reply =
      some c ∧
    (sendMessage env model (mkAgent reg0 model sp) (UserContent.str s)).trace =
      [true, false] ∧
    (sendMessage env model (mkAgent reg0 model sp)
        (UserContent.str s)).state.toolsSupported = some false ∧
    getEntry (sendMessage env model (mkAgent reg0 model sp)
        (UserContent.str s)).state.registry model = some false ∧
    (mkAgent (sendMessage env model (mkAgent reg0 model sp)
        (UserContent.str s)).state.registry model sp).toolsSupported =
      some false ∧
    (∀ env2 prompt2 b,
      b ∈ (sendMessage env2 model
          (sendMessage env model (mkAgent reg0 model sp)
            (UserContent.str s)).state prompt2).trace → b = false) := by
  have hse : (trimJs s).isEmpty = false := str_isEmpty_false hs
  have hce : c.isEmpty = false := str_isEmpty_false hc
  have h0' : env.respond ([] : List Bool).length = ModelResult.err e := h0
  have h1' : env.respond (([] : List Bool).length + 1) =
      ModelResult.ok (some ⟨some c, none⟩) := h1
  have hsend : sendMessage env model (mkAgent reg0 model sp)
      (UserContent.str s) =
      ⟨some c,
        ⟨[Message.system sp, Message.user (UserContent.str (trimJs s)),
          Message.assistant (some c) none],
         some false, setEntry reg0 model false, 0⟩,
        [true, false]⟩ := by
    simp only [sendMessage, hse, Bool.false_eq_true, if_false,
      show MAX_ITERATIONS = 4 + 1 from rfl, sendLoop, mkAgent, hreg,
      show ((none : Option Bool) == some false) = false from rfl,
      Bool.not_false, Bool.and_self, Bool.not_true, Bool.and_false,
      requestMessage_err_retry_ok h0' he h1']
    simp [parseManualToolCalls, hm, buildCalls, strTruthy, hce,
      appendToolFallback, appendAssistant, injectToolDefinitions]
  refine ⟨by rw [hsend], by rw [hsend], by rw [hsend], ?_, ?_, ?_⟩
  · rw [hsend]
    exact getEntry_setEntry reg0 model false
  · rw [hsend]
    simp [mkAgent, getEntry_setEntry]
  · intro env2 prompt2 b hb
    rw [hsend] at hb
    exact sendMessage_no_tools env2 model _ prompt2 rfl b hb

/-- C3 witness: the fallback at a concrete backend. -/
theorem claim_C3_witness :
    (sendMessage envC3 "m" (mkAgent [] "m" "sp") (UserContent.str "hola")).reply =
      some "Hola" ∧
    (sendMessage envC3 "m" (mkAgent [] "m" "sp") (UserContent.str "hola")).trace =
      [true, false] :=
  ⟨(claim_C3_capability_fallback envC3 "m" "sp" [] "hola"
      "this model does not support tools" "Hola" rfl (by decide) rfl (by decide)
      rfl (by decide) (by decide)).1,
   (claim_C3_capability_fallback envC3 "m" "sp" [] "hola"
      "this model does not support tools" "Hola" rfl (by decide) rfl (by decide)
      rfl (by decide) (by decide)).2.1⟩


theorem requestMessage_trace_length (env : Env) (model : String) (allow : Bool)
    (ts : Option Bool) (reg : List (String × Bool)) (tr : List Bool) :
    tr.length + 1 ≤ (requestMessage env model allow ts reg tr).trace.length := by
  unfold requestMessage
  split
  · split <;> simp
  · split
    · dsimp only
      split <;> simp
    · simp

theorem sendLoop_trace_length (env : Env) (model : String) (hasImages : Bool) :
    ∀ (fuel : Nat) (st : AgentState) (outs : List String) (tr : List Bool),
      tr.length ≤ (sendLoop env model hasImages fuel st outs tr).trace.length ∧
      (fuel ≠ 0 →
        tr.length + 1 ≤
          (sendLoop env model hasImages fuel st outs tr).trace.length) := by
  intro fuel
  induction fuel with
  | zero =>
    intro st outs tr
    exact ⟨le_refl _, fun h => absurd rfl h⟩
  | succ fuel ih =>
    intro st outs tr
    have hreq := requestMessage_trace_length env model
      (!hasImages && !(st.toolsSupported == some false)) st.toolsSupported
      st.registry tr
    simp only [sendLoop]
    split
    · exact ⟨by dsimp only; omega, fun _ => by dsimp only; omega⟩
    · split
      · split
        · exact ⟨by dsimp only; omega, fun _ => by dsimp only; omega⟩
        · split
          · exact ⟨by dsimp only; omega, fun _ => by dsimp only; omega⟩
          · exact ⟨by dsimp only; omega, fun _ => by dsimp only; omega⟩
      · constructor
        · refine le_trans ?_ (ih _ _ _).1
          omega
        · intro _
          refine le_trans ?_ (ih _ _ _).1
          omega

theorem get?_user_append (l l' : List Message) (i : Nat) (u : UserContent)
    (h : l[i]? = some (Message.user u)) :
    (l ++ l')[i]? = some (Message.user u) := by
  have hlt : i < l.length := by
    by_contra hge
    rw [List.getElem?_eq_none (by omega)] at h
    exact absurd h (by simp)
  rw [List.getElem?_append_left hlt]
  exact h

theorem get?_user_appendAssistant (l : List Message) (x : String) (i : Nat)
    (u : UserContent) (h : l[i]? = some (Message.user u)) :
    (appendAssistant l x)[i]? = some (Message.user u) := by
  unfold appendAssistant
  split
  · exact h
  · exact get?_user_append _ _ _ _ h

theorem inject_get?_user (l : List Message) (i : Nat) (u : UserContent)
    (h : l[i]? = some (Message.user u)) :
    (injectToolDefinitions l)[i]? = some (Message.user u) := by
  match l with
  | [] => simp at h
  | Message.system s2 :: rest =>
    match i with
    | 0 => simp at h
    | i + 1 =>
      simp only [injectToolDefinitions]
      split
      · exact h
      · simpa using h
  | Message.user c :: rest => exact h
  | Message.assistant a b :: rest => exact h
  | Message.tool a b :: rest => exact h

theorem sendLoop_preserves_user (env : Env) (model : String) (hasImages : Bool) :
    ∀ (fuel : Nat) (st : AgentState) (outs : List String) (tr : List Bool)
      (i : Nat) (u : UserContent),
      st.conversation[i]? = some (Message.user u) →
      (sendLoop env model hasImages fuel st outs tr).state.conversation[i]? =
        some (Message.user u) := by
  intro fuel
  induction fuel with
  | zero => intro st outs tr i u h; exact h
  | succ fuel ih =>
    intro st outs tr i u h
    have h0 : (if (!hasImages && st.toolsSupported == some false) = true
        then injectToolDefinitions st.conversation
        else st.conversation)[i]? = some (Message.user u) := by
      split
      · exact inject_get?_user _ _ _ h
      · exact h
    simp only [sendLoop, handleNativeToolFlow, handleManualToolFlow, runToolCalls]
    split
    · exact h0
    · split
      · split
        · exact get?_user_appendAssistant _ _ _ _ h0
        · split
          · exact get?_user_appendAssistant _ _ _ _ h0
          · exact h0
      · refine ih _ _ _ _ _ ?_
        split
        · exact get?_user_append _ _ _ _ (get?_user_append _ _ _ _ h0)
        · exact get?_user_append _ _ _ _ (get?_user_appendAssistant _ _ _ _ h0)

/-- C6: an empty or whitespace-only string input is rejected: `sendMessage`
returns null with the state untouched and no model call; an empty content
part array is likewise rejected; a NON-empty part array always proceeds
without any whitespace check — the user message is appended at the end of
the conversation (and survives the whole run) and at least one model call
is made. -/
theorem claim_C6_empty_rejection (env : Env) (model : String) (st : AgentState) :
    (∀ s : String, trimJs s = "" →
      sendMessage env model st (UserContent.str s) = ⟨none, st, []⟩) ∧
    (sendMessage env model st (UserContent.parts []) = ⟨none, st, []⟩) ∧
    (∀ ps : List ContentPart, ps ≠ [] →
      (sendMessage env model st (UserContent.parts ps)).trace ≠ [] ∧
      (sendMessage env model st
          (UserContent.parts ps)).state.conversation[st.conversation.length]? =
        some (Message.user (UserContent.parts ps))) := by
  refine ⟨fun s hsz => ?_, by rfl, fun ps hps => ⟨?_, ?_⟩⟩
  · have he : (trimJs s).isEmpty = true := by rw [hsz]; rfl
    simp [sendMessage, he]
  · have hemp : ps.isEmpty = false := by
      cases ps with
      | nil => exact absurd rfl hps
      | cons a l => rfl
    simp only [sendMessage, hemp, Bool.false_eq_true, if_false]
    obtain ⟨-, h2⟩ := sendLoop_trace_length env model
      (ps.any fun p => match p with
        | ContentPart.image_url _ => true
        | _ => false) MAX_ITERATIONS
      { st with conversation :=
          st.conversation ++ [Message.user (UserContent.parts ps)] } [] []
    intro hcon
    have h3 := h2 (by simp [MAX_ITERATIONS])
    rw [hcon] at h3
    simp at h3
  · have hemp : ps.isEmpty = false := by
      cases ps with
      | nil => exact absurd rfl hps
      | cons a l => rfl
    simp only [sendMessage, hemp, Bool.false_eq_true, if_false]
    refine sendLoop_preserves_user env model _ MAX_ITERATIONS _ [] [] _ _ ?_
    exact List.getElem?_concat_length st.conversation _

/-- C6 witness: a whitespace-only string is rejected without a model call;
a part array holding only a whitespace text part still proceeds. -/
theorem claim_C6_witness :
    sendMessage envPlain "m" st0 (UserContent.str "  ") = ⟨none, st0, []⟩ ∧
    (sendMessage envPlain "m" st0
      (UserContent.parts [ContentPart.text " "])).trace ≠ [] :=
  ⟨(claim_C6_empty_rejection envPlain "m" st0).1 "  " (by decide),
   ((claim_C6_empty_rejection envPlain "m" st0).2.2 [ContentPart.text " "]
      (by decide)).1⟩


theorem runToolCalls_last (exec : ToolCall → String) (conv : List Message)
    (toolCalls : List ToolCall) (h : toolCalls ≠ []) :
    ∃ i c, (runToolCalls exec conv toolCalls).2.getLast? =
      some (Message.tool i c) := by
  rcases List.eq_nil_or_concat toolCalls with h' | ⟨cs, cl, rfl⟩
  · exact absurd h' h
  refine ⟨cl.id, exec cl, ?_⟩
  simp only [runToolCalls, List.concat_eq_append, List.map_map, List.map_append,
    List.map_cons, List.map_nil, ← List.append_assoc]
  exact List.getLast?_concat _

theorem sendLoop_reply_appended (env : Env) (model : String) (hasImages : Bool) :
    ∀ (fuel : Nat) (st : AgentState) (outs : List String) (tr : List Bool),
      ∀ srep, (sendLoop env model hasImages fuel st outs tr).reply = some srep →
      srep ≠ "" → srep ≠ limitMessage →
      ∃ pre, (sendLoop env model hasImages fuel st outs tr).state.conversation =
        pre ++ [Message.assistant (some srep) none] := by
  intro fuel
  induction fuel with
  | zero =>
    intro st outs tr srep hr hne hnl
    exact absurd (Option.some.inj hr).symm hnl
  | succ fuel ih =>
    intro st outs tr
    simp only [sendLoop]
    split
    · intro srep hr
      exact absurd hr (by simp)
    · split
      · split
        · intro srep hr hne hnl
          obtain rfl := Option.some.inj hr
          refine ⟨if (!hasImages && st.toolsSupported == some false) = true then
            injectToolDefinitions st.conversation else st.conversation, ?_⟩
          simp only [appendAssistant, str_isEmpty_false hne, Bool.false_eq_true,
            if_false]
        · split
          · intro srep hr hne hnl
            obtain rfl := Option.some.inj hr
            refine ⟨if (!hasImages && st.toolsSupported == some false) = true then
              injectToolDefinitions st.conversation else st.conversation, ?_⟩
            simp only [appendAssistant, str_isEmpty_false hne, Bool.false_eq_true,
              if_false]
          · intro srep hr
            exact absurd hr (by simp)
      · exact ih _ _ _

theorem sendLoop_limit_tool (env : Env) (model : String) (hasImages : Bool)
    (htool : alwaysToolReq env) :
    ∀ (fuel : Nat) (st : AgentState) (outs : List String) (tr : List Bool),
      fuel ≠ 0 →
      (sendLoop env model hasImages fuel st outs tr).reply = some limitMessage →
      ∃ i c,
        (sendLoop env model hasImages fuel st outs tr).state.conversation.getLast? =
          some (Message.tool i c) := by
  intro fuel
  induction fuel with
  | zero => intro st outs tr h; exact absurd rfl h
  | succ fuel ih =>
    intro st outs tr _ hr
    cases hresp : env.respond tr.length with
    | ok msg =>
      obtain ⟨m, rfl, htc⟩ := htool tr.length msg hresp
      have hcond : ((m.tool_calls.getD []).isEmpty &&
          (parseManualToolCalls env.idGen st.idCtr (m.content.getD "")).isEmpty) =
            false := by
        rcases htc with h | h
        · have h1 : (m.tool_calls.getD []).isEmpty = false := by
            cases hx : m.tool_calls.getD [] with
            | nil => exact absurd hx h
            | cons a l => rfl
          simp [h1]
        · have h1 : (parseManualToolCalls env.idGen st.idCtr
              (m.content.getD "")).isEmpty = false := by
            cases hx : parseManualToolCalls env.idGen st.idCtr (m.content.getD "") with
            | nil =>
              exact absurd ((buildCalls_eq_nil env.idGen st.idCtr
                (manualMatches (m.content.getD ""))).mp hx) h
            | cons a l => rfl
          simp [h1]
      simp only [sendLoop, requestMessage_ok hresp, apply_ite ReqResult.message,
        apply_ite ReqResult.toolsSupported, apply_ite ReqResult.registry,
        apply_ite ReqResult.trace, ite_self, hcond, Bool.false_eq_true,
        if_false, handleNativeToolFlow, handleManualToolFlow] at hr ⊢
      cases fuel with
      | zero =>
        simp only [sendLoop] at hr ⊢
        split
        · next hnat =>
          exact runToolCalls_last _ _ _ (by
            intro hcon
            rw [hcon] at hnat
            simp at hnat)
        · next hnat =>
          rcases htc with h | h
          · exact absurd (by
              revert hnat
              cases hx : m.tool_calls.getD [] with
              | nil => exact fun _ => absurd hx h
              | cons a l => simp) id
          · exact runToolCalls_last _ _ _ (by
              intro hcon
              exact h ((buildCalls_eq_nil env.idGen st.idCtr
                (manualMatches (m.content.getD ""))).mp hcon))
      | succ fuel2 =>
        exact ih _ _ _ (by simp) hr
    | err e =>
      by_cases hb : (!hasImages && !(st.toolsSupported == some false)) = true
      · by_cases hte : isToolError e = true
        · cases hresp2 : env.respond (tr.length + 1) with
          | ok msg2 =>
            obtain ⟨m2, rfl, htc2⟩ := htool _ msg2 hresp2
            have hcond : ((m2.tool_calls.getD []).isEmpty &&
                (parseManualToolCalls env.idGen st.idCtr (m2.content.getD "")).isEmpty) =
                  false := by
              rcases htc2 with h | h
              · have h1 : (m2.tool_calls.getD []).isEmpty = false := by
                  cases hx : m2.tool_calls.getD [] with
                  | nil => exact absurd hx h
                  | cons a l => rfl
                simp [h1]
              · have h1 : (parseManualToolCalls env.idGen st.idCtr
                    (m2.content.getD "")).isEmpty = false := by
                  cases hx : parseManualToolCalls env.idGen st.idCtr (m2.content.getD "") with
                  | nil =>
                    exact absurd ((buildCalls_eq_nil env.idGen st.idCtr
                      (manualMatches (m2.content.getD ""))).mp hx) h
                  | cons a l => rfl
                simp [h1]
            simp only [sendLoop, hb, requestMessage_err_retry_ok hresp hte hresp2,
              hcond, Bool.false_eq_true, if_false, handleNativeToolFlow,
              handleManualToolFlow] at hr ⊢
            cases fuel with
            | zero =>
              simp only [sendLoop] at hr ⊢
              split
              · next hnat =>
                exact runToolCalls_last _ _ _ (by
                  intro hcon
                  rw [hcon] at hnat
                  simp at hnat)
              · next hnat =>
                rcases htc2 with h | h
                · exact absurd (by
                    revert hnat
                    cases hx : m2.tool_calls.getD [] with
                    | nil => exact fun _ => absurd hx h
                    | cons a l => simp) id
                · exact runToolCalls_last _ _ _ (by
                    intro hcon
                    exact h ((buildCalls_eq_nil env.idGen st.idCtr
                      (manualMatches (m2.content.getD ""))).mp hcon))
            | succ fuel2 =>
              exact ih _ _ _ (by simp) hr
          | err e2 =>
            simp only [sendLoop, hb,
              requestMessage_err_retry_err hresp hte hresp2] at hr
            exact absurd hr (by simp)
        · have hn : (isToolError e &&
              (!hasImages && !(st.toolsSupported == some false))) = false := by
            revert hte; cases isToolError e <;> simp
          simp only [sendLoop,
            requestMessage_err_no_retry hresp model _ st.toolsSupported
              st.registry hn] at hr
          exact absurd hr (by simp)
      · have hbf : (!hasImages && !(st.toolsSupported == some false)) = false := by
          revert hb; cases (!hasImages && !(st.toolsSupported == some false)) <;> simp
        have hn : (isToolError e &&
            (!hasImages && !(st.toolsSupported == some false))) = false := by
          simp [hbf]
        simp only [sendLoop,
          requestMessage_err_no_retry hresp model _ st.toolsSupported
            st.registry hn] at hr
        exact absurd hr (by simp)

/-- C9 (amended): every non-null, NON-EMPTY reply other than the
limit-reached message is also appended to the conversation as its final
assistant message (the empty-string reply — possible when the model
produces no text and every accumulated tool output is empty — is returned
without being appended); the limit-reached message itself is returned
without being appended: after cap exhaustion the conversation's last
message is a tool result. -/
theorem claim_C9_reply_append (env : Env) (model : String) (st : AgentState)
    (prompt : UserContent) :
    (∀ srep, (sendMessage env model st prompt).reply = some srep →
      srep ≠ "" → srep ≠ limitMessage →
      ∃ pre, (sendMessage env model st prompt).state.conversation =
        pre ++ [Message.assistant (some srep) none]) ∧
    (alwaysToolReq env →
      (sendMessage env model st prompt).reply = some limitMessage →
      ∃ i c,
        (sendMessage env model st prompt).state.conversation.getLast? =
          some (Message.tool i c)) := by
  cases prompt with
  | parts ps =>
    by_cases hp : ps.isEmpty = true
    · simp only [sendMessage, hp, if_true]
      exact ⟨fun srep hr => absurd hr (by simp),
        fun _ hr => absurd hr (by simp)⟩
    · simp only [sendMessage, hp, Bool.false_eq_true, if_false]
      exact ⟨sendLoop_reply_appended env model _ MAX_ITERATIONS _ [] [],
        fun htool => sendLoop_limit_tool env model _ htool MAX_ITERATIONS _ [] []
          (by simp [MAX_ITERATIONS])⟩
  | str s =>
    by_cases hp : (trimJs s).isEmpty = true
    · simp only [sendMessage, hp, if_true]
      exact ⟨fun srep hr => absurd hr (by simp),
        fun _ hr => absurd hr (by simp)⟩
    · simp only [sendMessage, hp, Bool.false_eq_true, if_false]
      exact ⟨sendLoop_reply_appended env model false MAX_ITERATIONS _ [] [],
        fun htool => sendLoop_limit_tool env model false htool MAX_ITERATIONS _ [] []
          (by simp [MAX_ITERATIONS])⟩

/-- C9 witness: a plain text reply is appended as the final assistant
message. -/
theorem claim_C9_witness :
    ∃ pre,
      (sendMessage envPlain "m" st0 (UserContent.str "ping")).state.conversation =
        pre ++ [Message.assistant (some "Hola") none] :=
  (claim_C9_reply_append envPlain "m" st0 (UserContent.str "ping")).1 "Hola"
    (by decide) (by decide) (by decide)

/-- C9 counterexample: when the model's only tool's output is the empty
string and the model then stops with no text, `sendMessage` returns the
non-null empty-string reply (which is not the limit message), yet the
conversation ends in the tool-result message — the returned reply was NOT
appended as an assistant message. -/
theorem claim_C9_counterexample :
    (sendMessage envC9 "m" st0 (UserContent.str "hola")).reply = some "" ∧
    "" ≠ limitMessage ∧
    (sendMessage envC9 "m" st0 (UserContent.str "hola")).state.conversation =
      [Message.system "sp", Message.user (UserContent.str "hola"),
       Message.assistant none (some [tcRead]), Message.tool "c1" ""] := by
  decide


theorem inject_append_user (l : List Message) (u : UserContent) :
    ∃ pre : List Message, pre.length = l.length ∧
      injectToolDefinitions (l ++ [Message.user u]) =
        pre ++ [Message.user u] := by
  match l with
  | [] => exact ⟨[], rfl, rfl⟩
  | Message.system s :: rest =>
    by_cases h : containsSub s.data "Herramientas disponibles:".data = true
    · exact ⟨Message.system s :: rest, rfl, by
        simp only [List.cons_append, injectToolDefinitions, h, if_true]⟩
    · refine ⟨Message.system (s ++ toolInstruction) :: rest, rfl, ?_⟩
      simp only [List.cons_append, injectToolDefinitions]
      rw [if_neg h]
  | Message.user c :: rest => exact ⟨Message.user c :: rest, rfl, rfl⟩
  | Message.assistant a b :: rest => exact ⟨Message.assistant a b :: rest, rfl, rfl⟩
  | Message.tool a b :: rest => exact ⟨Message.tool a b :: rest, rfl, rfl⟩

/-- C1 (amended): on a non-empty text input whose (first) model response
carries a NON-EMPTY textual reply, no native tool-call list and no manual
tool-call match, `sendMessage` returns exactly the model's reply and the
conversation grows by exactly 2: the (trimmed) user message and the
assistant reply are appended, in that order, after the prior conversation
(whose length is unchanged).  (An empty-string reply is falsy in JS:
`sendMessage` then returns null and only the user message is appended —
see the counterexample.) -/
theorem claim_C1_plain_reply (env : Env) (model : String) (st : AgentState)
    (s c : String)
    (hs : trimJs s ≠ "")
    (h0 : env.respond 0 = ModelResult.ok (some ⟨some c, none⟩))
    (hc : c ≠ "")
    (hm : manualMatches c = []) :
    (sendMessage env model st (UserContent.str s)).reply = some c ∧
    (sendMessage env model st (UserContent.str s)).state.conversation.length =
      st.conversation.length + 2 ∧
    ∃ pre : List Message, pre.length = st.conversation.length ∧
      (sendMessage env model st (UserContent.str s)).state.conversation =
        pre ++ [Message.user (UserContent.str (trimJs s)),
                Message.assistant (some c) none] := by
  have hse : (trimJs s).isEmpty = false := str_isEmpty_false hs
  have hce : c.isEmpty = false := str_isEmpty_false hc
  have h0' : env.respond ([] : List Bool).length =
      ModelResult.ok (some ⟨some c, none⟩) := h0
  obtain ⟨pre, hlen, hpre⟩ :=
    inject_append_user st.conversation (UserContent.str (trimJs s))
  have hsend : ∃ b : Bool,
      sendMessage env model st (UserContent.str s) =
      ⟨some c,
        ⟨(if (!false && st.toolsSupported == some false) = true
            then injectToolDefinitions
              (st.conversation ++ [Message.user (UserContent.str (trimJs s))])
            else st.conversation ++ [Message.user (UserContent.str (trimJs s))]) ++
          [Message.assistant (some c) none],
         st.toolsSupported, st.registry, st.idCtr⟩,
        [b]⟩ := by
    refine ⟨!false && !(st.toolsSupported == some false), ?_⟩
    simp only [sendMessage, hse, Bool.false_eq_true, if_false,
      show MAX_ITERATIONS = 4 + 1 from rfl, sendLoop,
      requestMessage_ok h0', msgToolCallsPresent, Option.isSome_none,
      Bool.and_false, Bool.false_eq_true, if_false,
      parseManualToolCalls, hm, buildCalls, strTruthy, hce, Bool.not_false,
      appendToolFallback, List.isEmpty_nil, if_true, appendAssistant,
      Option.getD_some, Option.getD_none, List.isEmpty_nil]
    rfl
  obtain ⟨b, hsend⟩ := hsend
  rw [hsend]
  by_cases hts : (st.toolsSupported == some false) = true
  · simp only [Bool.not_false, Bool.true_and, hts, if_true]
    rw [hpre]
    refine ⟨by trivial, ?_, pre, hlen, by simp⟩
    simp [hlen]
  · have hts' : (st.toolsSupported == some false) = false := by
      revert hts; cases st.toolsSupported == some false <;> simp
    simp only [Bool.not_false, Bool.true_and, hts', Bool.false_eq_true, if_false]
    refine ⟨by trivial, ?_, st.conversation, rfl, by simp⟩
    simp

/-- C1 witness: `"ping"` against a backend replying `"Hola"` with no tool
request. -/
theorem claim_C1_witness :
    (sendMessage envPlain "m" st0 (UserContent.str "ping")).reply =
      some "Hola" ∧
    (sendMessage envPlain "m" st0
        (UserContent.str "ping")).state.conversation.length =
      st0.conversation.length + 2 :=
  ⟨(claim_C1_plain_reply envPlain "m" st0 "ping" "Hola" (by decide) rfl
      (by decide) (by decide)).1,
   (claim_C1_plain_reply envPlain "m" st0 "ping" "Hola" (by decide) rfl
      (by decide) (by decide)).2.1⟩

/-- C1 counterexample: a model response whose textual reply is the EMPTY
string (and has no tool request) makes `sendMessage` return null — not
the model's textual reply — and the conversation grows by 1 (only the
user message), not 2: empty content is falsy in JS. -/
theorem claim_C1_counterexample :
    (sendMessage envEmptyReply "m" st0 (UserContent.str "hola")).reply =
      none ∧
    (sendMessage envEmptyReply "m" st0
        (UserContent.str "hola")).state.conversation.length =
      st0.conversation.length + 1 := by
  decide

end Agent
